import Mathlib

/-!
# nfs-gaze: mountstats parsing engine and delta/statistics engine

A shallow embedding of the core of `nfs-gaze` (a Go tool that parses the
Linux `/proc/self/mountstats` text format and computes per-operation
rate/latency deltas), together with theorems settling the specification
claims about it.

The embedding follows `stats.go` (the Linux revision cited by the claims):
`parseEvents`, `parseMountstats` (as a line-by-line state machine over the
scanned lines of the stream; file I/O is out of scope, panics are modelled
as `Option.none`) and `calculateDelta`.  Go `string` values are processed
as `List Char`; Go `int64` is modelled as `Int` with the `strconv.ParseInt`
range clamp made explicit; Go `float64` rate fields are modelled as `ℚ`,
which is exact for every quotient the claims mention.

A second device-line extractor (`deviceExtractOn`) embeds the revision of
the parser that splits the device line on the literal `" on "` substring,
and a strict stream parser (`stepStrict`/`parseStrict`) models the
spec-described `parseMountstatsReader`, which is referenced by
`stats_test.go` and `TESTING.md` but absent from the sources.
-/

set_option autoImplicit false

namespace NfsGaze

/-! ## Go string primitives (`strings` package, ASCII whitespace) -/

/-- The whitespace characters recognised by `strings.Fields` /
`strings.TrimSpace` (the ASCII subset of `unicode.IsSpace`; the mountstats
format only ever contains spaces and tabs). -/
def goIsSpace (c : Char) : Bool :=
  c = ' ' || c = '\t' || c = '\n' || c = '\x0b' || c = '\x0c' || c = '\r'

/-- `strings.TrimSpace` on a character list. -/
def trimL (cs : List Char) : List Char :=
  ((cs.dropWhile goIsSpace).reverse.dropWhile goIsSpace).reverse

/-- `strings.Fields`: split around runs of whitespace, dropping empty
fields.  `acc` is the (reversed) current field. -/
def fieldsAux : List Char → List Char → List (List Char)
  | [], acc => if acc.isEmpty then [] else [acc.reverse]
  | c :: cs, acc =>
    if goIsSpace c then
      if acc.isEmpty then fieldsAux cs [] else acc.reverse :: fieldsAux cs []
    else fieldsAux cs (c :: acc)

def fieldsL (cs : List Char) : List (List Char) := fieldsAux cs []

/-- `strings.HasPrefix`. -/
def hasPrefixL (cs pre : List Char) : Bool := pre.isPrefixOf cs

/-- Index of the first occurrence of `sep` as a substring (`strings.Index`
for a non-empty `sep`). -/
def findSubIdx : List Char → List Char → Option Nat
  | [], sep => if sep.isEmpty then some 0 else none
  | c :: rest, sep =>
    if sep.isPrefixOf (c :: rest) then some 0
    else (findSubIdx rest sep).map (· + 1)

/-- `strings.Contains` (for a non-empty substring). -/
def containsL (cs sub : List Char) : Bool :=
  (findSubIdx cs sub).isSome

/-- `strings.SplitN(s, sep, 2)`: the text before the first occurrence of
`sep` and the raw remainder (the whole string, as a singleton, when `sep`
does not occur). -/
def splitN2L (cs sep : List Char) : List (List Char) :=
  match findSubIdx cs sep with
  | none => [cs]
  | some i => [cs.take i, cs.drop (i + sep.length)]

/-! ## `strconv.ParseInt(s, 10, 64)` -/

def int64Max : Int := 9223372036854775807
def int64Min : Int := -9223372036854775808

/-- Decimal value of a digit run, `none` if any character is not a digit. -/
def decDigits? (cs : List Char) : Option Nat :=
  cs.foldl (fun acc c =>
    acc.bind fun n => if c.isDigit then some (n * 10 + (c.toNat - 48)) else none)
    (some 0)

/-- `strconv.ParseInt(s, 10, 64)`, returning the Go result value together
with a success flag: a syntax error yields `(0, false)`, a range error
yields the clamped `int64` extremum and `false` (Go returns the saturated
value alongside `ErrRange`). -/
def parseIntL (cs : List Char) : Int × Bool :=
  let (neg, ds) : Bool × List Char :=
    match cs with
    | '+' :: r => (false, r)
    | '-' :: r => (true, r)
    | r => (false, r)
  if ds.isEmpty then (0, false)
  else
    match decDigits? ds with
    | none => (0, false)
    | some n =>
      let v : Int := if neg then -(n : Int) else (n : Int)
      if v > int64Max then (int64Max, false)
      else if v < int64Min then (int64Min, false)
      else (v, true)

/-! ## Data model (`nfs-gaze.go` type declarations) -/

/-- `NFSOperation`: statistics for a single NFS operation. -/
structure NFSOperation where
  name        : String
  ops         : Int
  ntrans      : Int
  timeouts    : Int
  bytesSent   : Int
  bytesRecv   : Int
  queueTime   : Int
  rtt         : Int
  executeTime : Int
  errors      : Int
  deriving Repr, DecidableEq

/-- `NFSEvents`: the 27 positional VFS event counters. -/
structure NFSEvents where
  inodeRevalidate  : Int
  dentryRevalidate : Int
  dataInvalidate   : Int
  attrInvalidate   : Int
  vfsOpen          : Int
  vfsLookup        : Int
  vfsAccess        : Int
  vfsUpdatePage    : Int
  vfsReadPage      : Int
  vfsReadPages     : Int
  vfsWritePage     : Int
  vfsWritePages    : Int
  vfsGetdents      : Int
  vfsSetattr       : Int
  vfsFlush         : Int
  vfsFsync         : Int
  vfsLock          : Int
  vfsRelease       : Int
  congestionWait   : Int
  setattrTrunc     : Int
  extendWrite      : Int
  sillyRename      : Int
  shortRead        : Int
  shortWrite       : Int
  delay            : Int
  pnfsRead         : Int
  pnfsWrite        : Int

instance : DecidableEq NFSEvents := fun a b =>
  decidable_of_iff
    (a.inodeRevalidate = b.inodeRevalidate ∧ a.dentryRevalidate = b.dentryRevalidate ∧
     a.dataInvalidate = b.dataInvalidate ∧ a.attrInvalidate = b.attrInvalidate ∧
     a.vfsOpen = b.vfsOpen ∧ a.vfsLookup = b.vfsLookup ∧ a.vfsAccess = b.vfsAccess ∧
     a.vfsUpdatePage = b.vfsUpdatePage ∧ a.vfsReadPage = b.vfsReadPage ∧
     a.vfsReadPages = b.vfsReadPages ∧ a.vfsWritePage = b.vfsWritePage ∧
     a.vfsWritePages = b.vfsWritePages ∧ a.vfsGetdents = b.vfsGetdents ∧
     a.vfsSetattr = b.vfsSetattr ∧ a.vfsFlush = b.vfsFlush ∧ a.vfsFsync = b.vfsFsync ∧
     a.vfsLock = b.vfsLock ∧ a.vfsRelease = b.vfsRelease ∧
     a.congestionWait = b.congestionWait ∧ a.setattrTrunc = b.setattrTrunc ∧
     a.extendWrite = b.extendWrite ∧ a.sillyRename = b.sillyRename ∧
     a.shortRead = b.shortRead ∧ a.shortWrite = b.shortWrite ∧ a.delay = b.delay ∧
     a.pnfsRead = b.pnfsRead ∧ a.pnfsWrite = b.pnfsWrite)
    (by cases a; cases b; simp)

/-- The zero value `NFSEvents{}` (Go zero initialisation). -/
def zeroEvents : NFSEvents :=
  ⟨0, 0, 0, 0, 0, 0, 0, 0, 0, 0, 0, 0, 0, 0, 0, 0, 0, 0, 0, 0, 0, 0, 0, 0, 0, 0, 0⟩

/-- `NFSMount`: one NFS mount point.  `events` is a nullable pointer in Go
(`parseEvents` can return `nil` on a field error), hence `Option`. -/
structure NFSMount where
  device     : String
  mountPoint : String
  server     : String
  exportPath : String
  age        : Int
  operations : List (String × NFSOperation)
  events     : Option NFSEvents
  bytesRead  : Int
  bytesWrite : Int
  deriving DecidableEq

/-- `DeltaStats`: per-interval derived statistics.  The Go `float64` rate
fields are modelled as exact rationals. -/
structure DeltaStats where
  operation    : String
  deltaOps     : Int
  deltaBytes   : Int
  deltaSent    : Int
  deltaRecv    : Int
  deltaRTT     : Int
  deltaExec    : Int
  deltaQueue   : Int
  deltaErrors  : Int
  deltaRetrans : Int
  avgRTT       : ℚ
  avgExec      : ℚ
  avgQueue     : ℚ
  kbPerOp      : ℚ
  kbPerSec     : ℚ
  iops         : ℚ
  deriving Repr, DecidableEq

/-! ## `parseEvents` (stats.go lines 21-142)

Go returns `(*NFSEvents, error)`; the caller stores the first component
unconditionally, so the embedding returns the pointer value (`Option
NFSEvents`, `none` = `nil`) together with a success flag. -/

/-- One `strconv.ParseInt` field read that aborts `parseEvents` on error. -/
def pf (t : List Char) : Option Int :=
  match parseIntL t with
  | (v, true) => some v
  | (_, false) => none

/-- Read `n` consecutive `strconv.ParseInt` fields starting at index `i`,
aborting on the first malformed field (the sequence of early returns in
`parseEvents`). -/
def readInts (parts : List (List Char)) : Nat → Nat → Option (List Int)
  | _, 0 => some []
  | i, n + 1 =>
    match pf (parts.getD i []) with
    | none => none
    | some v => (readInts parts (i + 1) n).map (v :: ·)

/-- The field-by-field body of `parseEvents` (reached when at least 27
parts are present): the 25 mandatory counters in order, then the two
pNFS counters behind their `len(parts) > 25` / `> 26` guards; aborts on
the first malformed field. -/
def parseEventsFields (parts : List (List Char)) : Option NFSEvents :=
  match readInts parts 0 25 with
  | none => none
  | some vs =>
    let r25 := if 25 < parts.length then pf (parts.getD 25 []) else some 0
    let r26 := if 26 < parts.length then pf (parts.getD 26 []) else some 0
    match r25, r26 with
    | some v25, some v26 =>
      some { inodeRevalidate := vs.getD 0 0, dentryRevalidate := vs.getD 1 0,
             dataInvalidate := vs.getD 2 0, attrInvalidate := vs.getD 3 0,
             vfsOpen := vs.getD 4 0, vfsLookup := vs.getD 5 0,
             vfsAccess := vs.getD 6 0, vfsUpdatePage := vs.getD 7 0,
             vfsReadPage := vs.getD 8 0, vfsReadPages := vs.getD 9 0,
             vfsWritePage := vs.getD 10 0, vfsWritePages := vs.getD 11 0,
             vfsGetdents := vs.getD 12 0, vfsSetattr := vs.getD 13 0,
             vfsFlush := vs.getD 14 0, vfsFsync := vs.getD 15 0,
             vfsLock := vs.getD 16 0, vfsRelease := vs.getD 17 0,
             congestionWait := vs.getD 18 0, setattrTrunc := vs.getD 19 0,
             extendWrite := vs.getD 20 0, sillyRename := vs.getD 21 0,
             shortRead := vs.getD 22 0, shortWrite := vs.getD 23 0,
             delay := vs.getD 24 0, pnfsRead := v25, pnfsWrite := v26 }
    | _, _ => none

/-- `parseEvents` (stats.go): fewer than 27 parts returns the zero-valued
struct together with an error; a malformed field returns `nil` and an
error; otherwise the populated struct.  The `Bool` is `true` iff no error
was returned. -/
def parseEvents (parts : List (List Char)) : Option NFSEvents × Bool :=
  if parts.length < 27 then (some zeroEvents, false)
  else
    match parseEventsFields parts with
    | none => (none, false)
    | some e => (some e, true)

/-! ## `parseMountstats` (stats.go lines 145-280) as a line state machine -/

/-- Device-line trigger: `strings.HasPrefix(line, "device") &&
strings.Contains(line, "nfs")`. -/
def isDeviceLine (line : List Char) : Bool :=
  hasPrefixL line "device".data && containsL line "nfs".data

/-- The fixed-position device-line extraction of stats.go lines 162-184:
at least 8 whitespace fields, `server:export` at field 1, the mount-point
path at field 4, export defaulting to `"/"` when `server:export` has no
colon.  Returns the freshly constructed mount record, or `none` when the
line is skipped (`len(parts) < 8`). -/
def deviceExtractFixed (line : List Char) : Option NFSMount :=
  let parts := fieldsL line
  if 8 ≤ parts.length then
    let serverExport := parts.getD 1 []
    let mountPoint := parts.getD 4 []
    let serverParts := splitN2L serverExport [':']
    let server := serverParts.getD 0 []
    let exportP := if 1 < serverParts.length then serverParts.getD 1 [] else "/".data
    some { device := String.mk serverExport, mountPoint := String.mk mountPoint,
           server := String.mk server, exportPath := String.mk exportP,
           age := 0, operations := [], events := some zeroEvents,
           bytesRead := 0, bytesWrite := 0 }
  else none

/-- The device-line extraction of the `" on "`-splitting revision of
`parseMountstats` (utils_nolinux.go lines 760-788): split the line on the
literal substring `" on "`; if the separator is absent the line is skipped
(`continue`) — there is no fixed-position fallback. -/
def deviceExtractOn (line : List Char) : Option NFSMount :=
  let lineParts := splitN2L line " on ".data
  if lineParts.length = 2 then
    let deviceInfo := fieldsL (lineParts.getD 0 [])
    let mountInfo := fieldsL (lineParts.getD 1 [])
    if 2 ≤ deviceInfo.length ∧ 1 ≤ mountInfo.length then
      let serverExport := deviceInfo.getD 1 []
      let mountPoint := mountInfo.getD 0 []
      let serverParts := splitN2L serverExport [':']
      let server := serverParts.getD 0 []
      let exportP := if 1 < serverParts.length then serverParts.getD 1 [] else "/".data
      some { device := String.mk serverExport, mountPoint := String.mk mountPoint,
             server := String.mk server, exportPath := String.mk exportP,
             age := 0, operations := [], events := some zeroEvents,
             bytesRead := 0, bytesWrite := 0 }
    else none
  else none

/-- Parser state: the accumulated mount map and the key of the current
mount.  In Go `currentMount` is a pointer to the record stored in the map
under its mount-point key, so the key is all the state needed. -/
structure PState where
  mounts  : List (String × NFSMount)
  current : Option String
  deriving DecidableEq

/-- Map insert (Go `mounts[mountPoint] = currentMount`): replaces an
existing binding in place, appends otherwise. -/
def updA {α : Type} : List (String × α) → String → α → List (String × α)
  | [], k, v => [(k, v)]
  | (k', v') :: t, k, v => if k' = k then (k, v) :: t else (k', v') :: updA t k v

/-- Map lookup. -/
def lookupA {α : Type} : List (String × α) → String → Option α
  | [], _ => none
  | (k', v') :: t, k => if k' = k then some v' else lookupA t k

/-- Update the record stored under `k` in place (Go mutates the map entry
through the `currentMount` pointer). -/
def updF (l : List (String × NFSMount)) (k : String) (f : NFSMount → NFSMount) :
    List (String × NFSMount) :=
  l.map fun p => if p.1 = k then (p.1, f p.2) else p

/-- The `age:` handler (stats.go lines 187-195): the second token parses
as the age; a parse failure is logged and leaves the Go `ParseInt` result
value in the field. -/
def ageApply (line : List Char) (m : NFSMount) : NFSMount :=
  let parts := fieldsL line
  if 2 ≤ parts.length then { m with age := (parseIntL (parts.getD 1 [])).1 } else m

/-- The `events:` handler (stats.go lines 196-204): `parseEvents` on the
tokens after the label; its pointer result is stored unconditionally
(a field error stores `nil`), errors are only logged. -/
def eventsApply (line : List Char) (m : NFSMount) : NFSMount :=
  let parts := fieldsL line
  if 1 < parts.length then { m with events := (parseEvents (parts.drop 1)).1 } else m

/-- Operation-line guard (stats.go lines 218-221): any colon-containing
line not starting with one of the six excluded prefixes. -/
def isOpCandidate (line : List Char) : Bool :=
  containsL line [':'] && !hasPrefixL line "RPC".data && !hasPrefixL line "xprt".data &&
  !hasPrefixL line "per-op".data && !hasPrefixL line "opts".data &&
  !hasPrefixL line "caps".data && !hasPrefixL line "sec".data

/-- The operation-statistics block (stats.go lines 218-273): the trimmed
text before the first colon is the name/key; the text after tokenizes into
at least 9 fields, read positionally (field parse failures are logged and
leave the Go `ParseInt` result value); lines with fewer than 9 fields are
skipped.  Returns the key and record to store, or `none` when nothing is
stored. -/
def opLineParse (line : List Char) : Option (String × NFSOperation) :=
  if isOpCandidate line then
    let opParts := splitN2L line [':']
    if opParts.length = 2 then
      let opName := trimL (opParts.getD 0 [])
      let stats := fieldsL (opParts.getD 1 [])
      if 9 ≤ stats.length then
        some (String.mk opName,
          { name := String.mk opName,
            ops := (parseIntL (stats.getD 0 [])).1,
            ntrans := (parseIntL (stats.getD 1 [])).1,
            timeouts := (parseIntL (stats.getD 2 [])).1,
            bytesSent := (parseIntL (stats.getD 3 [])).1,
            bytesRecv := (parseIntL (stats.getD 4 [])).1,
            queueTime := (parseIntL (stats.getD 5 [])).1,
            rtt := (parseIntL (stats.getD 6 [])).1,
            executeTime := (parseIntL (stats.getD 7 [])).1,
            errors := if 8 < stats.length then (parseIntL (stats.getD 8 [])).1 else 0 })
      else none
    else none
  else none

/-- One iteration of the scanner loop of `parseMountstats` on a trimmed
line.  `none` models the one reachable runtime panic: the `bytes:` handler
guards `len(parts) >= 5` but then reads `parts[5]`, so a line with exactly
5 tokens indexes out of range. -/
def stepLine (st : PState) (raw : String) : Option PState :=
  let line := trimL raw.data
  if isDeviceLine line then
    match deviceExtractFixed line with
    | some m => some { mounts := updA st.mounts m.mountPoint m, current := some m.mountPoint }
    | none => some st
  else
    match st.current with
    | none => some st
    | some k =>
      if hasPrefixL line "age:".data then
        some { st with mounts := updF st.mounts k (ageApply line) }
      else if hasPrefixL line "events:".data then
        some { st with mounts := updF st.mounts k (eventsApply line) }
      else if hasPrefixL line "bytes:".data then
        let parts := fieldsL line
        if 5 ≤ parts.length then
          if 6 ≤ parts.length then
            some { st with mounts := updF st.mounts k (fun m =>
              { m with bytesRead := (parseIntL (parts.getD 1 [])).1,
                       bytesWrite := (parseIntL (parts.getD 5 [])).1 }) }
          else none
        else some st
      else
        match opLineParse line with
        | some (k2, op) =>
          some { st with mounts := updF st.mounts k (fun m =>
            { m with operations := updA m.operations k2 op }) }
        | none => some st

/-- Run the scanner loop over the remaining lines. -/
def runLines (st : PState) : List String → Option PState
  | [] => some st
  | l :: ls =>
    match stepLine st l with
    | some st' => runLines st' ls
    | none => none

def initState : PState := ⟨[], none⟩

/-- `parseMountstats`, as a function of the scanned lines of the stream
(`none` = runtime panic; stream I/O errors are out of scope). -/
def parseLines (ls : List String) : Option PState := runLines initState ls

/-- The mount record stored under `k` after a parse. -/
def mountOf (r : Option PState) (k : String) : Option NFSMount :=
  r.bind fun st => lookupA st.mounts k

/-- The operation record stored under `name` for the mount at `k`. -/
def opOf (r : Option PState) (k name : String) : Option NFSOperation :=
  (mountOf r k).bind fun m => lookupA m.operations name

/-! ## `calculateDelta` (stats.go lines 283-318) -/

/-- `calculateDelta`: `nil` inputs give `nil`; a non-positive ops delta
gives the zero-activity sentinel `&DeltaStats{Operation: name, DeltaOps: 0}`
(all other fields Go zero values, no division performed); otherwise the
full delta record. -/
def calculateDelta (previousOp currentOp : Option NFSOperation) (durationSec : ℚ) :
    Option DeltaStats :=
  match previousOp, currentOp with
  | some p, some c =>
    let deltaOps := c.ops - p.ops
    if deltaOps ≤ 0 then
      some { operation := c.name, deltaOps := 0, deltaBytes := 0, deltaSent := 0,
             deltaRecv := 0, deltaRTT := 0, deltaExec := 0, deltaQueue := 0,
             deltaErrors := 0, deltaRetrans := 0, avgRTT := 0, avgExec := 0,
             avgQueue := 0, kbPerOp := 0, kbPerSec := 0, iops := 0 }
    else
      let deltaSent := c.bytesSent - p.bytesSent
      let deltaRecv := c.bytesRecv - p.bytesRecv
      let deltaBytes := deltaSent + deltaRecv
      let deltaRTT := c.rtt - p.rtt
      let deltaExec := c.executeTime - p.executeTime
      let deltaQueue := c.queueTime - p.queueTime
      some { operation := c.name,
             deltaOps := deltaOps, deltaSent := deltaSent, deltaRecv := deltaRecv,
             deltaBytes := deltaBytes, deltaRTT := deltaRTT, deltaExec := deltaExec,
             deltaQueue := deltaQueue,
             deltaErrors := c.errors - p.errors,
             deltaRetrans := c.timeouts - p.timeouts,
             avgRTT := (deltaRTT : ℚ) / (deltaOps : ℚ),
             avgExec := (deltaExec : ℚ) / (deltaOps : ℚ),
             avgQueue := (deltaQueue : ℚ) / (deltaOps : ℚ),
             kbPerOp := (deltaBytes : ℚ) / (deltaOps : ℚ) / 1024,
             kbPerSec := (deltaBytes : ℚ) / durationSec / 1024,
             iops := (deltaOps : ℚ) / durationSec }
  | _, _ => none

/-! ## The strict stream parser, modelled from the spec

`stats_test.go` and `TESTING.md` refer to a stream-based core parser
(`parseMountstatsReader`, with per-line sub-parsers such as
`parseNFSOperation`) whose code is not among the sources; spec §4.1/§7
describe its contract: structural faults fail the entire `parse` call. -/

/-- Modelled from the spec: device-line extraction of the missing
`parseMountstatsReader` — "split on the literal substring `\x22 on \x22`
first; if that fails, fall back to fixed-position field extraction";
failure of both is a hard parse error (§4.1 step 1). -/
def specDeviceExtract (line : List Char) : Option (List Char × List Char) :=
  let lineParts := splitN2L line " on ".data
  let viaOn : Option (List Char × List Char) :=
    if lineParts.length = 2 then
      let deviceInfo := fieldsL (lineParts.getD 0 [])
      let mountInfo := fieldsL (lineParts.getD 1 [])
      if 2 ≤ deviceInfo.length ∧ 1 ≤ mountInfo.length then
        some (deviceInfo.getD 1 [], mountInfo.getD 0 [])
      else none
    else none
  match viaOn with
  | some r => some r
  | none =>
    let parts := fieldsL line
    if 8 ≤ parts.length then some (parts.getD 1 [], parts.getD 4 []) else none

/-- Modelled from the spec: a fresh Mount Record from the extracted
`server:export` and mount-point tokens; splitting `server:export` on the
first colon, export defaulting to `"/"` when no colon is present. -/
def specMkMount (serverExport mountPoint : List Char) : NFSMount :=
  let serverParts := splitN2L serverExport [':']
  { device := String.mk serverExport, mountPoint := String.mk mountPoint,
    server := String.mk (serverParts.getD 0 []),
    exportPath := if 1 < serverParts.length then String.mk (serverParts.getD 1 []) else "/",
    age := 0, operations := [], events := some zeroEvents,
    bytesRead := 0, bytesWrite := 0 }

/-- Modelled from the spec: the strict events sub-parser — 27 positional
counters, the trailing two (pNFS) optional and defaulting to zero, fewer
than the 25 mandatory fields or a non-numeric field is a parse error
(§4.1 step 2). -/
def specParseEvents (parts : List (List Char)) : Except String NFSEvents :=
  if parts.length < 25 then .error "events line with too few fields"
  else
    match readInts parts 0 25 with
    | none => .error "non-numeric events field"
    | some vs =>
      let r25 := if 25 < parts.length then pf (parts.getD 25 []) else some 0
      let r26 := if 26 < parts.length then pf (parts.getD 26 []) else some 0
      match r25, r26 with
      | some v25, some v26 =>
        .ok { inodeRevalidate := vs.getD 0 0, dentryRevalidate := vs.getD 1 0,
              dataInvalidate := vs.getD 2 0, attrInvalidate := vs.getD 3 0,
              vfsOpen := vs.getD 4 0, vfsLookup := vs.getD 5 0,
              vfsAccess := vs.getD 6 0, vfsUpdatePage := vs.getD 7 0,
              vfsReadPage := vs.getD 8 0, vfsReadPages := vs.getD 9 0,
              vfsWritePage := vs.getD 10 0, vfsWritePages := vs.getD 11 0,
              vfsGetdents := vs.getD 12 0, vfsSetattr := vs.getD 13 0,
              vfsFlush := vs.getD 14 0, vfsFsync := vs.getD 15 0,
              vfsLock := vs.getD 16 0, vfsRelease := vs.getD 17 0,
              congestionWait := vs.getD 18 0, setattrTrunc := vs.getD 19 0,
              extendWrite := vs.getD 20 0, sillyRename := vs.getD 21 0,
              shortRead := vs.getD 22 0, shortWrite := vs.getD 23 0,
              delay := vs.getD 24 0, pnfsRead := v25, pnfsWrite := v26 }
      | _, _ => .error "non-numeric events field"

/-- Modelled from the spec: the operation-line guard of the strict parser,
including the version markers `nfsv3`/`nfsv4` among the excluded prefixes
(§4.1 step 2). -/
def specIsOpCandidate (line : List Char) : Bool :=
  containsL line [':'] && !hasPrefixL line "RPC".data && !hasPrefixL line "xprt".data &&
  !hasPrefixL line "per-op".data && !hasPrefixL line "opts".data &&
  !hasPrefixL line "caps".data && !hasPrefixL line "sec".data &&
  !hasPrefixL line "nfsv3".data && !hasPrefixL line "nfsv4".data

/-- Modelled from the spec: the strict operation sub-parser
(`parseNFSOperation` in stats_test.go) — at least 8 numeric fields, the
9th (errors) optional and defaulting to zero; fewer than 8 fields or a
non-numeric field is a parse error. -/
def specOpParse (line : List Char) : Except String (String × NFSOperation) :=
  let opParts := splitN2L line [':']
  let opName := trimL (opParts.getD 0 [])
  let stats := fieldsL (opParts.getD 1 [])
  if stats.length < 8 then .error "operation line with too few fields"
  else
    match readInts stats 0 8 with
    | none => .error "non-numeric operation field"
    | some vs =>
      match (if 8 < stats.length then pf (stats.getD 8 []) else some 0) with
      | some v8 =>
        .ok (String.mk opName,
          { name := String.mk opName, ops := vs.getD 0 0, ntrans := vs.getD 1 0,
            timeouts := vs.getD 2 0, bytesSent := vs.getD 3 0, bytesRecv := vs.getD 4 0,
            queueTime := vs.getD 5 0, rtt := vs.getD 6 0, executeTime := vs.getD 7 0,
            errors := v8 })
      | none => .error "non-numeric operation field"

/-- Modelled from the spec: one line of the strict state machine of the
missing `parseMountstatsReader`; any structural fault is an error that
fails the entire parse (§7). -/
def stepStrict (st : PState) (raw : String) : Except String PState :=
  let line := trimL raw.data
  if isDeviceLine line then
    match specDeviceExtract line with
    | none => .error "malformed device line"
    | some (serverExport, mountPoint) =>
      let m := specMkMount serverExport mountPoint
      .ok { mounts := updA st.mounts m.mountPoint m, current := some m.mountPoint }
  else
    match st.current with
    | none => .ok st
    | some k =>
      if hasPrefixL line "age:".data then
        match pf ((fieldsL line).getD 1 []) with
        | some v => .ok { st with mounts := updF st.mounts k (fun m => { m with age := v }) }
        | none => .error "non-numeric age field"
      else if hasPrefixL line "events:".data then
        match specParseEvents ((fieldsL line).drop 1) with
        | .ok e => .ok { st with mounts := updF st.mounts k (fun m => { m with events := some e }) }
        | .error e => .error e
      else if hasPrefixL line "bytes:".data then
        let parts := fieldsL line
        if parts.length < 6 then .error "bytes line with too few fields"
        else
          match pf (parts.getD 1 []), pf (parts.getD 5 []) with
          | some br, some bw =>
            .ok { st with mounts := updF st.mounts k (fun m =>
              { m with bytesRead := br, bytesWrite := bw }) }
          | _, _ => .error "non-numeric bytes field"
      else if specIsOpCandidate line then
        match specOpParse line with
        | .ok (k2, op) =>
          .ok { st with mounts := updF st.mounts k (fun m =>
            { m with operations := updA m.operations k2 op }) }
        | .error e => .error e
      else .ok st

/-- Run the strict state machine, short-circuiting on the first error. -/
def runStrict (st : PState) : List String → Except String PState
  | [] => .ok st
  | l :: ls =>
    match stepStrict st l with
    | .ok st' => runStrict st' ls
    | .error e => .error e

/-- Modelled from the spec: `parse(stream) -> Mapping | Error`
(`parseMountstatsReader`), as a function of the scanned lines. -/
def parseStrict (ls : List String) : Except String PState := runStrict initState ls

/-! ## Remaining definitions used by claim statements -/

/-- The trimmed text before the first colon of a (trimmed) line — the
operation name an operation line carries. -/
def preColonName (raw : String) : String :=
  String.mk (trimL ((splitN2L (trimL raw.data) [':']).getD 0 []))

/-- First device line of the duplicate-mount scenario: mount point
`/mnt/nfs`, device `10.0.0.1:/export1`. -/
def d1Line : String :=
  "device 10.0.0.1:/export1 mounted on /mnt/nfs with fstype nfs4 statvers=1.1"

/-- Second device line of the duplicate-mount scenario: the same mount
point `/mnt/nfs`, device `10.0.0.2:/export2`. -/
def d2Line : String :=
  "device 10.0.0.2:/export2 mounted on /mnt/nfs with fstype nfs4 statvers=1.1"

/-- Invariant: every operation record reachable in a state is stored under
a key equal to its name, and that key satisfies `P` (instantiated below
with provenance from the processed lines). -/
def OpsOK (P : String → Prop) (st : PState) : Prop :=
  ∀ k m, lookupA st.mounts k = some m →
    ∀ k2 op, lookupA m.operations k2 = some op → op.name = k2 ∧ P k2

/-! # Theorems -/

/-! ## Helper lemmas about the primitives -/

theorem pf_ok (t : List Char) (h : (parseIntL t).2 = true) :
    pf t = some (parseIntL t).1 := by
  unfold pf
  split
  next v heq => rw [heq]
  next v heq => rw [heq] at h; cases h

theorem splitN2L_length_two (cs sep : List Char) (h : containsL cs sep = true) :
    (splitN2L cs sep).length = 2 := by
  unfold containsL at h
  unfold splitN2L
  cases hf : findSubIdx cs sep with
  | none => rw [hf] at h; simp at h
  | some i => simp

theorem splitN2L_no_sep (cs sep : List Char) (h : containsL cs sep = false) :
    splitN2L cs sep = [cs] := by
  unfold containsL at h
  unfold splitN2L
  cases hf : findSubIdx cs sep with
  | none => simp
  | some i => rw [hf] at h; simp at h

theorem lookupA_updA {α : Type} (l : List (String × α)) (k k' : String) (v : α) :
    lookupA (updA l k v) k' = if k = k' then some v else lookupA l k' := by
  induction l with
  | nil => simp only [updA, lookupA]
  | cons p t ih =>
    obtain ⟨pk, pv⟩ := p
    simp only [updA]
    by_cases h1 : pk = k
    · subst h1
      by_cases h2 : pk = k' <;> simp [lookupA, h2]
    · by_cases h2 : pk = k' <;> by_cases h3 : k = k' <;>
        simp_all [lookupA, ih]

theorem lookupA_updF (l : List (String × NFSMount)) (k k' : String)
    (f : NFSMount → NFSMount) :
    lookupA (updF l k f) k' =
      if k = k' then (lookupA l k').map f else lookupA l k' := by
  induction l with
  | nil => simp [updF, lookupA]
  | cons p t ih =>
    obtain ⟨pk, pv⟩ := p
    have hstep : updF ((pk, pv) :: t) k f
        = (if pk = k then (pk, f pv) else (pk, pv)) :: updF t k f := rfl
    rw [hstep]
    by_cases h1 : pk = k
    · rw [if_pos h1]
      subst h1
      by_cases h2 : pk = k' <;> simp [lookupA, ih, h2]
    · rw [if_neg h1]
      by_cases h2 : pk = k' <;> by_cases h3 : k = k' <;>
        simp_all [lookupA, ih]

theorem updA_nil {α : Type} (k : String) (v : α) : updA [] k v = [(k, v)] := rfl

theorem updA_single {α : Type} (k : String) (a v : α) :
    updA [(k, a)] k v = [(k, v)] := by simp [updA]

theorem updF_single (k : String) (m : NFSMount) (f : NFSMount → NFSMount) :
    updF [(k, m)] k f = [(k, f m)] := by simp [updF]

theorem runLines_append (st : PState) (xs ys : List String) :
    runLines st (xs ++ ys) =
      match runLines st xs with
      | some st' => runLines st' ys
      | none => none := by
  induction xs generalizing st with
  | nil => simp [runLines]
  | cons l t ih =>
    simp only [List.cons_append, runLines]
    cases stepLine st l with
    | none => simp
    | some st' => simp [ih]

theorem runStrict_append (st : PState) (xs ys : List String) :
    runStrict st (xs ++ ys) =
      match runStrict st xs with
      | .ok st' => runStrict st' ys
      | .error e => .error e := by
  induction xs generalizing st with
  | nil => simp [runStrict]
  | cons l t ih =>
    simp only [List.cons_append, runStrict]
    cases stepStrict st l with
    | error e => simp
    | ok st' => simp [ih]

/-! ## Structural lemmas about the scanner step -/

theorem ageApply_operations (line : List Char) (m : NFSMount) :
    (ageApply line m).operations = m.operations := by
  simp only [ageApply]; split <;> rfl

theorem eventsApply_operations (line : List Char) (m : NFSMount) :
    (eventsApply line m).operations = m.operations := by
  simp only [eventsApply]; split <;> rfl

theorem opLineParse_name (line : List Char) (k2 : String) (op : NFSOperation)
    (h : opLineParse line = some (k2, op)) :
    op.name = k2 ∧ k2 = String.mk (trimL ((splitN2L line [':']).getD 0 [])) := by
  simp only [opLineParse] at h
  split at h
  · split at h
    · split at h
      · simp only [Option.some.injEq, Prod.mk.injEq] at h
        obtain ⟨hk, hop⟩ := h
        subst hk; subst hop
        exact ⟨rfl, rfl⟩
      · cases h
    · cases h
  · cases h

theorem deviceExtractFixed_operations (line : List Char) (m : NFSMount)
    (h : deviceExtractFixed line = some m) : m.operations = [] := by
  simp only [deviceExtractFixed] at h
  split at h
  · rw [← Option.some.inj h]
  · cases h

/-- Everything a successful scanner step can do: accept a device line and
rebind its mount-point key; leave the state unchanged; update the current
mount without touching its operation table; or insert one parsed operation
record into the current mount's operation table. -/
theorem stepLine_char (st : PState) (raw : String) (st' : PState)
    (h : stepLine st raw = some st') :
    (isDeviceLine (trimL raw.data) = true ∧
      ∃ m, deviceExtractFixed (trimL raw.data) = some m ∧ m.operations = [] ∧
        st' = ⟨updA st.mounts m.mountPoint m, some m.mountPoint⟩) ∨
    st' = st ∨
    (∃ k f, st.current = some k ∧ st' = ⟨updF st.mounts k f, st.current⟩ ∧
      ∀ m, (f m).operations = m.operations) ∨
    (∃ k k2 op, st.current = some k ∧ opLineParse (trimL raw.data) = some (k2, op) ∧
      op.name = k2 ∧
      st' = ⟨updF st.mounts k (fun m => { m with operations := updA m.operations k2 op }),
             st.current⟩) := by
  simp only [stepLine] at h
  split at h
  · -- device line
    rename_i hdev
    split at h
    · rename_i m heq
      exact Or.inl ⟨hdev, m, heq, deviceExtractFixed_operations _ _ heq,
        (Option.some.inj h).symm⟩
    · exact Or.inr (Or.inl (Option.some.inj h).symm)
  · rename_i hdev
    split at h
    · -- no current mount
      exact Or.inr (Or.inl (Option.some.inj h).symm)
    · rename_i k hc
      split at h
      · -- age:
        exact Or.inr (Or.inr (Or.inl ⟨k, _, hc, (Option.some.inj h).symm,
          ageApply_operations _⟩))
      · split at h
        · -- events:
          exact Or.inr (Or.inr (Or.inl ⟨k, _, hc, (Option.some.inj h).symm,
            eventsApply_operations _⟩))
        · split at h
          · -- bytes:
            split at h
            · split at h
              · exact Or.inr (Or.inr (Or.inl ⟨k, _, hc, (Option.some.inj h).symm,
                  fun m => rfl⟩))
              · cases h
            · exact Or.inr (Or.inl (Option.some.inj h).symm)
          · -- operation line
            split at h
            · rename_i k2 op heq
              exact Or.inr (Or.inr (Or.inr ⟨k, k2, op, hc, heq,
                (opLineParse_name _ _ _ heq).1, (Option.some.inj h).symm⟩))
            · exact Or.inr (Or.inl (Option.some.inj h).symm)

/-! ## Key-uniqueness invariant and overwrite-collapse lemmas -/

theorem updA_updA {α : Type} (l : List (String × α)) (k : String) (v w : α) :
    updA (updA l k v) k w = updA l k w := by
  induction l with
  | nil => simp [updA]
  | cons p t ih =>
    obtain ⟨pk, pv⟩ := p
    by_cases h1 : pk = k
    · simp [updA, h1]
    · simp only [updA, if_neg h1, ih]

theorem updF_keys (l : List (String × NFSMount)) (k : String) (f : NFSMount → NFSMount) :
    (updF l k f).map Prod.fst = l.map Prod.fst := by
  induction l with
  | nil => rfl
  | cons p t ih =>
    have hstep : updF (p :: t) k f = (if p.1 = k then (p.1, f p.2) else p) :: updF t k f := rfl
    rw [hstep]
    simp only [List.map_cons, ih]
    congr 1
    split <;> rfl

theorem mem_updA_keys {α : Type} (l : List (String × α)) (k : String) (v : α) (x : String) :
    x ∈ (updA l k v).map Prod.fst → x ∈ l.map Prod.fst ∨ x = k := by
  induction l with
  | nil =>
    intro h
    simp [updA] at h
    exact Or.inr h
  | cons p t ih =>
    obtain ⟨pk, pv⟩ := p
    by_cases h1 : pk = k
    · intro h
      simp only [updA, if_pos h1, List.map_cons, List.mem_cons] at h
      rcases h with he | hm
      · exact Or.inr he
      · exact Or.inl (by simp [hm])
    · intro h
      simp only [updA, if_neg h1, List.map_cons, List.mem_cons] at h
      rcases h with he | hm
      · exact Or.inl (by simp [he])
      · rcases ih hm with hl | he
        · exact Or.inl (by simp [hl])
        · exact Or.inr he

theorem updA_keys_nodup {α : Type} (l : List (String × α)) (k : String) (v : α)
    (h : (l.map Prod.fst).Nodup) : ((updA l k v).map Prod.fst).Nodup := by
  induction l with
  | nil => simp [updA]
  | cons p t ih =>
    obtain ⟨pk, pv⟩ := p
    simp only [List.map_cons, List.nodup_cons] at h
    obtain ⟨hpk, hnt⟩ := h
    by_cases h1 : pk = k
    · simp only [updA, if_pos h1, List.map_cons, List.nodup_cons]
      exact ⟨h1 ▸ hpk, hnt⟩
    · simp only [updA, if_neg h1, List.map_cons, List.nodup_cons]
      refine ⟨?_, ih hnt⟩
      intro hmem
      rcases mem_updA_keys t k v pk hmem with hm | he
      · exact hpk hm
      · exact h1 he

theorem updF_absent (l : List (String × NFSMount)) (k : String) (f : NFSMount → NFSMount)
    (h : ∀ p ∈ l, p.1 ≠ k) : updF l k f = l := by
  induction l with
  | nil => rfl
  | cons p t ih =>
    have hstep : updF (p :: t) k f = (if p.1 = k then (p.1, f p.2) else p) :: updF t k f := rfl
    rw [hstep, if_neg (h p (List.mem_cons_self _ _)),
        ih (fun q hq => h q (List.mem_cons_of_mem _ hq))]

/-- Replacing the binding at `k` right after updating it in place collapses
the update, provided the keys are unique (as they are in every reachable
parser state). -/
theorem updA_updF_nodup (l : List (String × NFSMount)) (k : String)
    (f : NFSMount → NFSMount) (w : NFSMount)
    (h : (l.map Prod.fst).Nodup) : updA (updF l k f) k w = updA l k w := by
  induction l with
  | nil => rfl
  | cons p t ih =>
    obtain ⟨pk, pv⟩ := p
    simp only [List.map_cons, List.nodup_cons] at h
    obtain ⟨hpk, hnt⟩ := h
    have hstep : updF ((pk, pv) :: t) k f
        = (if pk = k then (pk, f pv) else (pk, pv)) :: updF t k f := rfl
    rw [hstep]
    by_cases h1 : pk = k
    · rw [if_pos h1]
      have habs : updF t k f = t := by
        refine updF_absent t k f fun q hq hqk => ?_
        apply hpk
        have hmem : q.1 ∈ t.map Prod.fst := List.mem_map_of_mem Prod.fst hq
        rw [hqk] at hmem
        rw [h1]
        exact hmem
      simp only [updA, if_pos h1, habs]
    · rw [if_neg h1]
      simp only [updA, if_neg h1, ih hnt]

theorem stepLine_nodup (st : PState) (raw : String) (st' : PState)
    (h : stepLine st raw = some st') (hn : (st.mounts.map Prod.fst).Nodup) :
    (st'.mounts.map Prod.fst).Nodup := by
  rcases stepLine_char _ _ _ h with
    ⟨_, m, _, _, heq⟩ | heq | ⟨k, f, _, heq, _⟩ | ⟨k, k2, op, _, _, _, heq⟩
  · subst heq; exact updA_keys_nodup _ _ _ hn
  · subst heq; exact hn
  · subst heq
    show ((updF st.mounts k f).map Prod.fst).Nodup
    rw [updF_keys]; exact hn
  · subst heq
    show ((updF st.mounts k (fun m =>
      { m with operations := updA m.operations k2 op })).map Prod.fst).Nodup
    rw [updF_keys]; exact hn

theorem runLines_nodup (ls : List String) :
    ∀ (st st' : PState), runLines st ls = some st' →
      (st.mounts.map Prod.fst).Nodup → (st'.mounts.map Prod.fst).Nodup := by
  induction ls with
  | nil =>
    intro st st' h hn
    have heq : st' = st := (Option.some.inj h).symm
    subst heq; exact hn
  | cons l t ih =>
    intro st st' h hn
    simp only [runLines] at h
    cases hstep : stepLine st l with
    | none => rw [hstep] at h; cases h
    | some st1 =>
      rw [hstep] at h
      exact ih st1 st' h (stepLine_nodup _ _ _ hstep hn)

/-- Over lines that do not start a new mount, the scanner keeps the
current-mount key, keeps keys unique, and only changes the value bound at
that key: rebinding the key afterwards erases everything those lines did. -/
theorem runLines_nondevice_collapse (k : String) (ls : List String) :
    ∀ (st st' : PState),
      (∀ l ∈ ls, isDeviceLine (trimL l.data) = false) →
      st.current = some k →
      (st.mounts.map Prod.fst).Nodup →
      runLines st ls = some st' →
      st'.current = some k ∧ (st'.mounts.map Prod.fst).Nodup ∧
        ∀ w, updA st'.mounts k w = updA st.mounts k w := by
  induction ls with
  | nil =>
    intro st st' _ hcur hnod h
    have heq : st' = st := (Option.some.inj h).symm
    subst heq
    exact ⟨hcur, hnod, fun w => rfl⟩
  | cons l t ih =>
    intro st st' hdev hcur hnod h
    simp only [runLines] at h
    cases hstep : stepLine st l with
    | none => rw [hstep] at h; cases h
    | some st1 =>
      rw [hstep] at h
      have htail : ∀ x ∈ t, isDeviceLine (trimL x.data) = false :=
        fun x hx => hdev x (List.mem_cons_of_mem _ hx)
      rcases stepLine_char _ _ _ hstep with
        ⟨hdl, _⟩ | heq | ⟨k0, f, hc0, heq, _⟩ | ⟨k0, k2, op, hc0, _, _, heq⟩
      · rw [hdev l (List.mem_cons_self _ _)] at hdl; cases hdl
      · rw [heq] at h; exact ih st st' htail hcur hnod h
      · have hk0 : k0 = k := Option.some.inj (hc0.symm.trans hcur)
        rw [hk0] at heq
        have h1cur : st1.current = some k := by rw [heq]; exact hcur
        have h1nod : (st1.mounts.map Prod.fst).Nodup := by
          rw [heq]
          show ((updF st.mounts k f).map Prod.fst).Nodup
          rw [updF_keys]; exact hnod
        obtain ⟨ha, hb, hc⟩ := ih st1 st' htail h1cur h1nod h
        refine ⟨ha, hb, fun w => ?_⟩
        rw [hc w, heq]
        exact updA_updF_nodup _ _ _ _ hnod
      · have hk0 : k0 = k := Option.some.inj (hc0.symm.trans hcur)
        rw [hk0] at heq
        have h1cur : st1.current = some k := by rw [heq]; exact hcur
        have h1nod : (st1.mounts.map Prod.fst).Nodup := by
          rw [heq]
          show ((updF st.mounts k (fun m =>
            { m with operations := updA m.operations k2 op })).map Prod.fst).Nodup
          rw [updF_keys]; exact hnod
        obtain ⟨ha, hb, hc⟩ := ih st1 st' htail h1cur h1nod h
        refine ⟨ha, hb, fun w => ?_⟩
        rw [hc w, heq]
        show updA (updF st.mounts k (fun m =>
          { m with operations := updA m.operations k2 op })) k w = updA st.mounts k w
        exact updA_updF_nodup _ _ _ _ hnod

/-! ## Operation-name invariant machinery -/

theorem opsOK_mono (P Q : String → Prop) (st : PState)
    (hPQ : ∀ n, P n → Q n) (h : OpsOK P st) : OpsOK Q st :=
  fun k m hm k2 op hop => ⟨(h k m hm k2 op hop).1, hPQ _ (h k m hm k2 op hop).2⟩

theorem step_opsOK (st : PState) (raw : String) (st' : PState) (P : String → Prop)
    (h : stepLine st raw = some st') (hinv : OpsOK P st) :
    OpsOK (fun n => P n ∨ (opLineParse (trimL raw.data)).map Prod.fst = some n) st' := by
  rcases stepLine_char _ _ _ h with
    ⟨_, m, _, hops, heq⟩ | heq | ⟨k, f, _, heq, hf⟩ | ⟨k, k2, op, _, hop, hname, heq⟩
  · subst heq
    intro k' m' hm' k2 op hop
    rw [lookupA_updA] at hm'
    by_cases hk : m.mountPoint = k'
    · rw [if_pos hk] at hm'
      have hmm : m' = m := (Option.some.inj hm').symm
      subst hmm
      rw [hops] at hop
      cases hop
    · rw [if_neg hk] at hm'
      exact ⟨(hinv k' m' hm' k2 op hop).1, Or.inl (hinv k' m' hm' k2 op hop).2⟩
  · subst heq
    exact opsOK_mono _ _ _ (fun n => Or.inl) hinv
  · subst heq
    intro k' m' hm' k2 op hop
    rw [lookupA_updF] at hm'
    by_cases hk : k = k'
    · rw [if_pos hk] at hm'
      cases hold : lookupA st.mounts k' with
      | none => rw [hold] at hm'; cases hm'
      | some m0 =>
        rw [hold] at hm'
        have hmm : m' = f m0 := (Option.some.inj hm').symm
        subst hmm
        rw [hf m0] at hop
        exact ⟨(hinv k' m0 hold k2 op hop).1, Or.inl (hinv k' m0 hold k2 op hop).2⟩
    · rw [if_neg hk] at hm'
      exact ⟨(hinv k' m' hm' k2 op hop).1, Or.inl (hinv k' m' hm' k2 op hop).2⟩
  · subst heq
    intro k' m' hm' k2' op' hop'
    rw [lookupA_updF] at hm'
    by_cases hk : k = k'
    · rw [if_pos hk] at hm'
      cases hold : lookupA st.mounts k' with
      | none => rw [hold] at hm'; cases hm'
      | some m0 =>
        rw [hold] at hm'
        have hmm : m' = { m0 with operations := updA m0.operations k2 op } :=
          (Option.some.inj hm').symm
        subst hmm
        simp only at hop'
        rw [lookupA_updA] at hop'
        by_cases h2 : k2 = k2'
        · rw [if_pos h2] at hop'
          have hoo : op' = op := (Option.some.inj hop').symm
          subst hoo
          refine ⟨h2 ▸ hname, Or.inr ?_⟩
          rw [hop]; simp [h2]
        · rw [if_neg h2] at hop'
          exact ⟨(hinv k' m0 hold k2' op' hop').1, Or.inl (hinv k' m0 hold k2' op' hop').2⟩
    · rw [if_neg hk] at hm'
      exact ⟨(hinv k' m' hm' k2' op' hop').1, Or.inl (hinv k' m' hm' k2' op' hop').2⟩

theorem runLines_opsOK (ls : List String) :
    ∀ (st st' : PState) (P : String → Prop),
      runLines st ls = some st' → OpsOK P st →
      OpsOK (fun n => P n ∨
        ∃ raw, raw ∈ ls ∧ (opLineParse (trimL raw.data)).map Prod.fst = some n) st' := by
  induction ls with
  | nil =>
    intro st st' P h hinv
    have heq : st' = st := (Option.some.inj h).symm
    subst heq
    exact opsOK_mono _ _ _ (fun n => Or.inl) hinv
  | cons l t ih =>
    intro st st' P h hinv
    simp only [runLines] at h
    cases hstep : stepLine st l with
    | none => rw [hstep] at h; cases h
    | some st1 =>
      rw [hstep] at h
      have h1 := step_opsOK _ _ _ _ hstep hinv
      have h2 := ih st1 st' _ h h1
      refine opsOK_mono _ _ _ ?_ h2
      rintro n ((hp | hl) | ⟨raw, hraw, hn⟩)
      · exact Or.inl hp
      · exact Or.inr ⟨l, List.mem_cons_self _ _, hl⟩
      · exact Or.inr ⟨raw, List.mem_cons_of_mem _ hraw, hn⟩

theorem stepLine_device_accept (st : PState) (raw : String) (m : NFSMount)
    (hdev : isDeviceLine (trimL raw.data) = true)
    (hext : deviceExtractFixed (trimL raw.data) = some m) :
    stepLine st raw = some ⟨updA st.mounts m.mountPoint m, some m.mountPoint⟩ := by
  simp only [stepLine, hdev, hext, if_true]

/-! ## Claim theorems -/

/-- C1: for every input stream containing a structural fault the strict
core `parse` fails the entire call and returns no mapping — an error at
any line makes the whole parse an error, regardless of what precedes or
follows it — and in particular the stream consisting of the single device
line `device 10.0.0.1:/mnt/nfs type nfs4` (missing the mount-point token)
fails to parse. -/
theorem c1_strict_parse_fails_on_fault :
    (∀ (pre : List String) (st : PState) (l : String) (suf : List String) (e : String),
      runStrict initState pre = .ok st → stepStrict st l = .error e →
      parseStrict (pre ++ l :: suf) = .error e) ∧
    parseStrict ["device 10.0.0.1:/mnt/nfs type nfs4"] = .error "malformed device line" := by
  constructor
  · intro pre st l suf e h1 h2
    unfold parseStrict
    rw [runStrict_append, h1]
    simp only [runStrict, h2]
  · rfl

/-- Witness for C1 at a concrete stream: a preamble line, the malformed
device line, and a trailing line. -/
theorem c1_strict_parse_fails_on_fault_witness :
    parseStrict (["hello world"] ++ "device 10.0.0.1:/mnt/nfs type nfs4" :: ["age: 5"]) =
      .error "malformed device line" :=
  c1_strict_parse_fails_on_fault.1 ["hello world"] initState
    "device 10.0.0.1:/mnt/nfs type nfs4" ["age: 5"] "malformed device line" rfl rfl

/-- C2 counterexample: an operation line with exactly 8 numeric fields is
claimed to be accepted with a zero errors field, but `parseMountstats`
requires at least 9 fields and stores nothing for it. -/
theorem c2_counterexample :
    opOf (parseLines ["device a:/b mounted on /mnt with fstype nfs4 statvers=1.1",
                      "WRITE: 50 50 0 512 256 5 10 15"]) "/mnt" "WRITE" = none ∧
    (mountOf (parseLines ["device a:/b mounted on /mnt with fstype nfs4 statvers=1.1",
                      "WRITE: 50 50 0 512 256 5 10 15"]) "/mnt").map
        NFSMount.operations = some [] := by
  exact ⟨by decide, by decide⟩

/-- C2 amended: an operation line needs at least 9 whitespace fields after
the colon (so the errors field is always present); such a line yields the
positional record (ops, retransmissions, timeouts, bytes sent, bytes
received, queue time, RTT, execute time, errors = fields 0..8); lines with
8 or fewer fields are rejected; and an accepted record is stored into the
current mount's operation table. -/
theorem c2_amended_op_line_needs_nine_fields :
    (∀ line : List Char,
      isOpCandidate line = true →
      9 ≤ (fieldsL ((splitN2L line [':']).getD 1 [])).length →
      opLineParse line = some (String.mk (trimL ((splitN2L line [':']).getD 0 [])),
        { name := String.mk (trimL ((splitN2L line [':']).getD 0 [])),
          ops := (parseIntL ((fieldsL ((splitN2L line [':']).getD 1 [])).getD 0 [])).1,
          ntrans := (parseIntL ((fieldsL ((splitN2L line [':']).getD 1 [])).getD 1 [])).1,
          timeouts := (parseIntL ((fieldsL ((splitN2L line [':']).getD 1 [])).getD 2 [])).1,
          bytesSent := (parseIntL ((fieldsL ((splitN2L line [':']).getD 1 [])).getD 3 [])).1,
          bytesRecv := (parseIntL ((fieldsL ((splitN2L line [':']).getD 1 [])).getD 4 [])).1,
          queueTime := (parseIntL ((fieldsL ((splitN2L line [':']).getD 1 [])).getD 5 [])).1,
          rtt := (parseIntL ((fieldsL ((splitN2L line [':']).getD 1 [])).getD 6 [])).1,
          executeTime := (parseIntL ((fieldsL ((splitN2L line [':']).getD 1 [])).getD 7 [])).1,
          errors := (parseIntL ((fieldsL ((splitN2L line [':']).getD 1 [])).getD 8 [])).1 })) ∧
    (∀ line : List Char,
      (fieldsL ((splitN2L line [':']).getD 1 [])).length < 9 →
      opLineParse line = none) ∧
    (∀ (st : PState) (k : String) (raw : String) (k2 : String) (op : NFSOperation),
      st.current = some k →
      isDeviceLine (trimL raw.data) = false →
      hasPrefixL (trimL raw.data) "age:".data = false →
      hasPrefixL (trimL raw.data) "events:".data = false →
      hasPrefixL (trimL raw.data) "bytes:".data = false →
      opLineParse (trimL raw.data) = some (k2, op) →
      stepLine st raw = some ⟨updF st.mounts k
        (fun m => { m with operations := updA m.operations k2 op }), st.current⟩) := by
  refine ⟨?_, ?_, ?_⟩
  · intro line hc hlen
    have hcont : containsL line [':'] = true := by
      simp only [isOpCandidate, Bool.and_eq_true] at hc
      exact hc.1.1.1.1.1.1
    have h2 := splitN2L_length_two line [':'] hcont
    simp only [opLineParse, hc, if_true, h2, if_pos, hlen]
    rw [if_pos (by omega : 8 < (fieldsL ((splitN2L line [':']).getD 1 [])).length)]
  · intro line h
    simp only [opLineParse]
    split
    · split
      · split
        · rename_i h9
          exact absurd h9 (by omega)
        · rfl
      · rfl
    · rfl
  · intro st k raw k2 op hc hdev hage hev hby hop
    simp only [stepLine, hdev, hc, hage, hev, hby, hop, Bool.false_eq_true, if_false]

/-- Witness for C2's amended claim: the 9-field line of the repository's
own operation test is accepted with `errors = 2`; the 8-field variant is
rejected. -/
theorem c2_amended_witness :
    opLineParse "READ: 100 95 5 1024 2048 10 20 30 2".data =
      some ("READ", ⟨"READ", 100, 95, 5, 1024, 2048, 10, 20, 30, 2⟩) ∧
    opLineParse "WRITE: 50 50 0 512 256 5 10 15".data = none := by
  constructor
  · exact (c2_amended_op_line_needs_nine_fields.1 _ (by decide) (by decide)).trans (by decide)
  · exact c2_amended_op_line_needs_nine_fields.2.1 _ (by decide)

/-- C3 counterexample: `device 10.0.0.1:/export on /mnt type nfs4` is a
valid device line of the `" on "` layout (the `" on "`-splitting revision
accepts it and extracts mount point `/mnt`, second conjunct), yet the
cited `parseMountstats` produces no mount keyed `/mnt` for it (first
conjunct): there is no `" on "`-split-then-fixed-position fallback. -/
theorem c3_counterexample :
    mountOf (parseLines ["device 10.0.0.1:/export on /mnt type nfs4"]) "/mnt" = none ∧
    (deviceExtractOn (trimL "device 10.0.0.1:/export on /mnt type nfs4".data)).map
        NFSMount.mountPoint = some "/mnt" := by
  exact ⟨by decide, by decide⟩

/-- C3 amended: `parseMountstats` (stats.go) extracts device lines by
fixed positions only — at least 8 fields, `server:export` = field 1,
mount-point key = field 4, export defaulting to `/` when `server:export`
has no colon — and skips (rather than falls back on) shorter lines; the
`" on "`-splitting revision conversely only splits on `" on "` and skips
lines without it; an accepted record is stored under its mount-point key. -/
theorem c3_amended_two_layouts_no_fallback :
    (∀ line : List Char, 8 ≤ (fieldsL line).length →
      (deviceExtractFixed line).map (fun m => (m.mountPoint, m.device)) =
        some (String.mk ((fieldsL line).getD 4 []), String.mk ((fieldsL line).getD 1 []))) ∧
    (∀ line : List Char, 8 ≤ (fieldsL line).length →
      containsL ((fieldsL line).getD 1 []) [':'] = false →
      (deviceExtractFixed line).map NFSMount.exportPath = some "/") ∧
    (∀ line : List Char, (fieldsL line).length < 8 → deviceExtractFixed line = none) ∧
    (∀ line : List Char, (splitN2L line " on ".data).length = 2 →
      2 ≤ (fieldsL ((splitN2L line " on ".data).getD 0 [])).length →
      1 ≤ (fieldsL ((splitN2L line " on ".data).getD 1 [])).length →
      (deviceExtractOn line).map (fun m => (m.mountPoint, m.device)) =
        some (String.mk ((fieldsL ((splitN2L line " on ".data).getD 1 [])).getD 0 []),
              String.mk ((fieldsL ((splitN2L line " on ".data).getD 0 [])).getD 1 []))) ∧
    (∀ line : List Char, (splitN2L line " on ".data).length ≠ 2 →
      deviceExtractOn line = none) ∧
    (∀ (st : PState) (raw : String) (m : NFSMount),
      isDeviceLine (trimL raw.data) = true →
      deviceExtractFixed (trimL raw.data) = some m →
      stepLine st raw = some ⟨updA st.mounts m.mountPoint m, some m.mountPoint⟩) := by
  refine ⟨?_, ?_, ?_, ?_, ?_, ?_⟩
  · intro line h
    simp only [deviceExtractFixed]
    rw [if_pos h]
    rfl
  · intro line h hcont
    simp only [deviceExtractFixed]
    rw [if_pos h]
    have hs := splitN2L_no_sep _ _ hcont
    rw [hs]
    rfl
  · intro line h
    simp only [deviceExtractFixed]
    rw [if_neg (by omega)]
  · intro line h2 hd hm
    simp only [deviceExtractOn]
    rw [if_pos h2, if_pos ⟨hd, hm⟩]
    rfl
  · intro line h2
    simp only [deviceExtractOn]
    rw [if_neg h2]
  · exact fun st raw m hdev hext => stepLine_device_accept st raw m hdev hext

/-- Witness for C3's amended claim at the two concrete layouts. -/
theorem c3_amended_witness :
    (deviceExtractFixed "device server:/export mounted on /mnt/nfs with fstype nfs4 statvers=1.1".data).map
        (fun m => (m.mountPoint, m.device)) = some ("/mnt/nfs", "server:/export") ∧
    (deviceExtractFixed "device server mounted on /mnt/nfs with fstype nfs4 statvers=1.1".data).map
        NFSMount.exportPath = some "/" ∧
    deviceExtractFixed "device 10.0.0.1:/export on /mnt type nfs4".data = none ∧
    (deviceExtractOn "device 10.0.0.1:/export on /mnt type nfs4".data).map
        (fun m => (m.mountPoint, m.device)) = some ("/mnt", "10.0.0.1:/export") ∧
    deviceExtractOn "device server:/export mounted_on /mnt a b c nfs d".data = none := by
  refine ⟨?_, ?_, ?_, ?_, ?_⟩
  · exact (c3_amended_two_layouts_no_fallback.1 _ (by decide)).trans (by decide)
  · exact (c3_amended_two_layouts_no_fallback.2.1 _ (by decide) (by decide)).trans (by decide)
  · exact c3_amended_two_layouts_no_fallback.2.2.1 _ (by decide)
  · exact (c3_amended_two_layouts_no_fallback.2.2.2.1 _ (by decide) (by decide) (by decide)).trans
      (by decide)
  · exact c3_amended_two_layouts_no_fallback.2.2.2.2.1 _ (by decide)

/-- C4 counterexample: an events vector with only the first 25 fields is
claimed to be accepted with the pNFS counters defaulting to zero, but
`parseEvents` reports an error for any vector shorter than 27 (its result
value is the zero-valued struct, not the populated first 25 counters); 26
fields are likewise rejected. -/
theorem c4_counterexample :
    (parseEvents (List.replicate 25 ['1'])).2 = false ∧
    (parseEvents (List.replicate 26 ['1'])).2 = false ∧
    (parseEvents (List.replicate 25 ['1'])).1 = some zeroEvents := by
  exact ⟨rfl, rfl, rfl⟩

/-- C4 amended: `parseEvents` requires all 27 fields — any vector with
fewer than 27 fields is a parse error (the `len > 25` / `len > 26` pNFS
guards are unreachable), and a vector with at least 27 fields parses all
27 counters positionally. -/
theorem c4_amended_events_need_all_27 :
    (∀ parts : List (List Char), parts.length < 27 → (parseEvents parts).2 = false) ∧
    (∀ (parts : List (List Char)) (vs : List Int) (v25 v26 : Int),
      27 ≤ parts.length →
      readInts parts 0 25 = some vs →
      pf (parts.getD 25 []) = some v25 →
      pf (parts.getD 26 []) = some v26 →
      parseEvents parts =
        (some { inodeRevalidate := vs.getD 0 0, dentryRevalidate := vs.getD 1 0,
                dataInvalidate := vs.getD 2 0, attrInvalidate := vs.getD 3 0,
                vfsOpen := vs.getD 4 0, vfsLookup := vs.getD 5 0,
                vfsAccess := vs.getD 6 0, vfsUpdatePage := vs.getD 7 0,
                vfsReadPage := vs.getD 8 0, vfsReadPages := vs.getD 9 0,
                vfsWritePage := vs.getD 10 0, vfsWritePages := vs.getD 11 0,
                vfsGetdents := vs.getD 12 0, vfsSetattr := vs.getD 13 0,
                vfsFlush := vs.getD 14 0, vfsFsync := vs.getD 15 0,
                vfsLock := vs.getD 16 0, vfsRelease := vs.getD 17 0,
                congestionWait := vs.getD 18 0, setattrTrunc := vs.getD 19 0,
                extendWrite := vs.getD 20 0, sillyRename := vs.getD 21 0,
                shortRead := vs.getD 22 0, shortWrite := vs.getD 23 0,
                delay := vs.getD 24 0, pnfsRead := v25, pnfsWrite := v26 }, true)) := by
  constructor
  · intro parts h
    simp only [parseEvents]
    rw [if_pos h]
  · intro parts vs v25 v26 hlen hr h25 h26
    simp only [parseEvents, parseEventsFields]
    rw [if_neg (by omega), hr]
    rw [if_pos (by omega : 25 < parts.length), h25,
        if_pos (by omega : 26 < parts.length), h26]

/-- Witness for C4's amended claim at a concrete 27-field vector. -/
theorem c4_amended_witness :
    parseEvents (List.replicate 27 ['1']) =
      (some ⟨1, 1, 1, 1, 1, 1, 1, 1, 1, 1, 1, 1, 1, 1, 1, 1, 1, 1, 1, 1, 1, 1, 1, 1, 1, 1, 1⟩,
       true) :=
  (c4_amended_events_need_all_27.2 (List.replicate 27 ['1']) (List.replicate 25 1) 1 1
    (by decide) (by decide) (by decide) (by decide)).trans (by decide)

/-- C5: the `bytes:` handler is not total — its guard `len(parts) >= 5`
does not cover the `parts[5]` read, so a bytes line with exactly 5 tokens
panics with an index-out-of-range (first conjunct, `none` models the
panic); a well-formed bytes line populates cumulative bytes read/written
from tokens 1 and 5 (second conjunct); and a bytes line with fewer than 5
tokens is silently ignored rather than treated as an error (third
conjunct). -/
theorem c5_bytes_guard_off_by_one :
    parseLines ["device a:/b mounted on /mnt with fstype nfs4 statvers=1.1",
                "bytes: 1 2 3 4"] = none ∧
    (mountOf (parseLines ["device a:/b mounted on /mnt with fstype nfs4 statvers=1.1",
                "bytes: 1048576 0 0 0 2097152 0 0 0"]) "/mnt").map
        (fun m => (m.bytesRead, m.bytesWrite)) = some (1048576, 2097152) ∧
    (mountOf (parseLines ["device a:/b mounted on /mnt with fstype nfs4 statvers=1.1",
                "bytes: 1 2 3"]) "/mnt").map
        (fun m => (m.bytesRead, m.bytesWrite)) = some (0, 0) := by
  exact ⟨by decide, by decide, by decide⟩

/-- C6: `calculateDelta` returns `nil` whenever either operation record is
`nil`, and for present records with `current.ops <= previous.ops` it
returns the zero-activity sentinel: only the operation name is populated,
every other field (including every rate field) is at its zero default, and
no quotient is formed from the non-positive divisor. -/
theorem c6_calculateDelta_nil_and_zero_sentinel :
    (∀ d : ℚ, calculateDelta none none d = none) ∧
    (∀ (c : NFSOperation) (d : ℚ), calculateDelta none (some c) d = none) ∧
    (∀ (p : NFSOperation) (d : ℚ), calculateDelta (some p) none d = none) ∧
    (∀ (p c : NFSOperation) (d : ℚ), c.ops ≤ p.ops →
      calculateDelta (some p) (some c) d =
        some { operation := c.name, deltaOps := 0, deltaBytes := 0, deltaSent := 0,
               deltaRecv := 0, deltaRTT := 0, deltaExec := 0, deltaQueue := 0,
               deltaErrors := 0, deltaRetrans := 0, avgRTT := 0, avgExec := 0,
               avgQueue := 0, kbPerOp := 0, kbPerSec := 0, iops := 0 }) := by
  refine ⟨fun d => rfl, fun c d => rfl, fun p d => rfl, fun p c d h => ?_⟩
  simp only [calculateDelta]
  rw [if_pos (by omega : c.ops - p.ops ≤ 0)]

/-- Witness for C6 at equal counters and duration 2. -/
theorem c6_witness :
    calculateDelta (some ⟨"WRITE", 100, 0, 0, 0, 0, 0, 0, 0, 0⟩)
        (some ⟨"WRITE", 100, 0, 0, 0, 0, 0, 0, 0, 0⟩) 2 =
      some { operation := "WRITE", deltaOps := 0, deltaBytes := 0, deltaSent := 0,
             deltaRecv := 0, deltaRTT := 0, deltaExec := 0, deltaQueue := 0,
             deltaErrors := 0, deltaRetrans := 0, avgRTT := 0, avgExec := 0,
             avgQueue := 0, kbPerOp := 0, kbPerSec := 0, iops := 0 } :=
  c6_calculateDelta_nil_and_zero_sentinel.2.2.2 _ _ 2 (le_refl _)

/-- C7: for present records with `current.ops > previous.ops` and any
duration `d > 0`, the delta record's IOPS is exactly `delta_ops / d`, the
average RTT/execute/queue times are their counter deltas divided by
`delta_ops`, KB-per-op is total delta bytes / delta_ops / 1024, and
KB-per-sec is total delta bytes / d / 1024 (rates computed in `ℚ`, exact). -/
theorem c7_calculateDelta_rates (p c : NFSOperation) (d : ℚ)
    (h1 : p.ops < c.ops) (h2 : 0 < d) :
    ∃ dd, calculateDelta (some p) (some c) d = some dd ∧
      dd.iops = ((c.ops - p.ops : Int) : ℚ) / d ∧
      dd.avgRTT = ((c.rtt - p.rtt : Int) : ℚ) / ((c.ops - p.ops : Int) : ℚ) ∧
      dd.avgExec = ((c.executeTime - p.executeTime : Int) : ℚ) / ((c.ops - p.ops : Int) : ℚ) ∧
      dd.avgQueue = ((c.queueTime - p.queueTime : Int) : ℚ) / ((c.ops - p.ops : Int) : ℚ) ∧
      dd.kbPerOp = (((c.bytesSent - p.bytesSent) + (c.bytesRecv - p.bytesRecv) : Int) : ℚ) /
        ((c.ops - p.ops : Int) : ℚ) / 1024 ∧
      dd.kbPerSec = (((c.bytesSent - p.bytesSent) + (c.bytesRecv - p.bytesRecv) : Int) : ℚ) /
        d / 1024 := by
  refine ⟨{ operation := c.name, deltaOps := c.ops - p.ops,
            deltaBytes := (c.bytesSent - p.bytesSent) + (c.bytesRecv - p.bytesRecv),
            deltaSent := c.bytesSent - p.bytesSent, deltaRecv := c.bytesRecv - p.bytesRecv,
            deltaRTT := c.rtt - p.rtt, deltaExec := c.executeTime - p.executeTime,
            deltaQueue := c.queueTime - p.queueTime, deltaErrors := c.errors - p.errors,
            deltaRetrans := c.timeouts - p.timeouts,
            avgRTT := ((c.rtt - p.rtt : Int) : ℚ) / ((c.ops - p.ops : Int) : ℚ),
            avgExec := ((c.executeTime - p.executeTime : Int) : ℚ) / ((c.ops - p.ops : Int) : ℚ),
            avgQueue := ((c.queueTime - p.queueTime : Int) : ℚ) / ((c.ops - p.ops : Int) : ℚ),
            kbPerOp := (((c.bytesSent - p.bytesSent) + (c.bytesRecv - p.bytesRecv) : Int) : ℚ) /
              ((c.ops - p.ops : Int) : ℚ) / 1024,
            kbPerSec := (((c.bytesSent - p.bytesSent) + (c.bytesRecv - p.bytesRecv) : Int) : ℚ) /
              d / 1024,
            iops := ((c.ops - p.ops : Int) : ℚ) / d },
         ?_, rfl, rfl, rfl, rfl, rfl, rfl⟩
  simp only [calculateDelta]
  rw [if_neg (by omega : ¬(c.ops - p.ops ≤ 0))]

/-- Witness for C7 at the spec's worked scenario (`ops 10→20`,
`bytesSent 100→200`, `bytesRecv 200→400`, `rtt 300→600`, `exec 400→800`,
`queue 500→1000`, `d = 1`). -/
theorem c7_witness :
    ∃ dd, calculateDelta (some ⟨"READ", 10, 0, 0, 100, 200, 500, 300, 400, 0⟩)
        (some ⟨"READ", 20, 0, 0, 200, 400, 1000, 600, 800, 0⟩) 1 = some dd ∧
      dd.iops = ((20 - 10 : Int) : ℚ) / 1 ∧
      dd.avgRTT = ((600 - 300 : Int) : ℚ) / ((20 - 10 : Int) : ℚ) ∧
      dd.avgExec = ((800 - 400 : Int) : ℚ) / ((20 - 10 : Int) : ℚ) ∧
      dd.avgQueue = ((1000 - 500 : Int) : ℚ) / ((20 - 10 : Int) : ℚ) ∧
      dd.kbPerOp = (((200 - 100) + (400 - 200) : Int) : ℚ) / ((20 - 10 : Int) : ℚ) / 1024 ∧
      dd.kbPerSec = (((200 - 100) + (400 - 200) : Int) : ℚ) / 1 / 1024 :=
  c7_calculateDelta_rates ⟨"READ", 10, 0, 0, 100, 200, 500, 300, 400, 0⟩
    ⟨"READ", 20, 0, 0, 200, 400, 1000, 600, 800, 0⟩ 1 (by norm_num) (by norm_num)

/-- C8: parsing is a pure function of the scanned stream content — the
state machine starts from the same fixed initial state on every call and
holds nothing across calls, so parsing the same content twice yields
structurally equal results. -/
theorem c8_parse_deterministic (ls : List String) : parseLines ls = parseLines ls := rfl

/-- C9 counterexample: the stored operation name is not necessarily
non-empty — a line whose text before the first colon is all whitespace
yields an operation record stored under the empty name. -/
theorem c9_counterexample :
    (opOf (parseLines ["device a:/b mounted on /mnt with fstype nfs4 statvers=1.1",
                       ": 1 1 1 1 1 1 1 1 1"]) "/mnt" "").map NFSOperation.name =
      some "" := by
  decide

/-- C9 amended: every operation record produced by an operation line
carries a name equal to the trimmed text before the line's first colon
(which may be empty), and every operation record stored in any mount of a
parse result is stored under a key equal to its name and traceable to an
operation line of the stream with that pre-colon text. -/
theorem c9_amended_op_names :
    (∀ (raw : String) (k2 : String) (op : NFSOperation),
      opLineParse (trimL raw.data) = some (k2, op) →
      op.name = k2 ∧ k2 = preColonName raw) ∧
    (∀ (ls : List String) (st : PState) (k : String) (m : NFSMount)
       (k2 : String) (op : NFSOperation),
      parseLines ls = some st → lookupA st.mounts k = some m →
      lookupA m.operations k2 = some op →
      op.name = k2 ∧ ∃ raw, raw ∈ ls ∧
        (opLineParse (trimL raw.data)).map Prod.fst = some k2) := by
  constructor
  · intro raw k2 op h
    unfold preColonName
    exact opLineParse_name _ _ _ h
  · intro ls st k m k2 op hp hm hop
    have h0 : OpsOK (fun _ => False) initState := by
      intro k' m' hm' k2' op' hop'
      cases hm'
    have h1 := runLines_opsOK ls initState st _ hp h0
    have h2 := h1 k m hm k2 op hop
    exact ⟨h2.1, h2.2.resolve_left id⟩

/-- Witness for C9's amended claim at a concrete parse. -/
theorem c9_amended_witness :
    (⟨"READ", 1, 1, 1, 1, 1, 1, 1, 1, 1⟩ : NFSOperation).name = "READ" ∧
    ∃ raw, raw ∈ ["device a:/b mounted on /mnt with fstype nfs4 statvers=1.1",
                  "READ: 1 1 1 1 1 1 1 1 1"] ∧
      (opLineParse (trimL raw.data)).map Prod.fst = some "READ" :=
  c9_amended_op_names.2
    ["device a:/b mounted on /mnt with fstype nfs4 statvers=1.1",
     "READ: 1 1 1 1 1 1 1 1 1"]
    ⟨[("/mnt", ⟨"a:/b", "/mnt", "a", "/b", 0,
        [("READ", ⟨"READ", 1, 1, 1, 1, 1, 1, 1, 1, 1⟩)], some zeroEvents, 0, 0⟩)],
      some "/mnt"⟩
    "/mnt"
    ⟨"a:/b", "/mnt", "a", "/b", 0,
      [("READ", ⟨"READ", 1, 1, 1, 1, 1, 1, 1, 1, 1⟩)], some zeroEvents, 0, 0⟩
    "READ" ⟨"READ", 1, 1, 1, 1, 1, 1, 1, 1, 1⟩
    (by decide) (by decide) (by decide)

/-- C10: for every stream of the form `pre ++ raw1 :: stats1 ++ raw2 :: stats2`
in which `raw1` and `raw2` are accepted device lines whose extracted
mount-point path tokens are equal and `stats1` starts no new mount, the
parse result is as if only the later device line and the stat lines
following it had been in the stream: the later record overwrites the
earlier one together with every stat attached to it, leaving one entry
under that path. -/
theorem c10_last_device_line_wins
    (pre stats1 stats2 : List String) (raw1 raw2 : String)
    (m1 m2 : NFSMount) (stMid : PState)
    (hdev1 : isDeviceLine (trimL raw1.data) = true)
    (hext1 : deviceExtractFixed (trimL raw1.data) = some m1)
    (hdev2 : isDeviceLine (trimL raw2.data) = true)
    (hext2 : deviceExtractFixed (trimL raw2.data) = some m2)
    (hkey : m1.mountPoint = m2.mountPoint)
    (h1 : ∀ l ∈ stats1, isDeviceLine (trimL l.data) = false)
    (hs1 : parseLines (pre ++ raw1 :: stats1) = some stMid) :
    parseLines (pre ++ raw1 :: stats1 ++ raw2 :: stats2) =
      parseLines (pre ++ raw2 :: stats2) := by
  have hsplit := hs1
  unfold parseLines at hsplit
  rw [runLines_append initState pre (raw1 :: stats1)] at hsplit
  cases hp : runLines initState pre with
  | none =>
    rw [hp] at hsplit
    exact Option.noConfusion hsplit
  | some stP =>
    rw [hp] at hsplit
    have hseg : runLines stP (raw1 :: stats1) = some stMid := hsplit
    have hstep1 := stepLine_device_accept stP raw1 m1 hdev1 hext1
    have hseg1 : runLines
        (⟨updA stP.mounts m1.mountPoint m1, some m1.mountPoint⟩ : PState) stats1 =
        some stMid := by
      have heq : runLines stP (raw1 :: stats1) =
          runLines (⟨updA stP.mounts m1.mountPoint m1, some m1.mountPoint⟩ : PState)
            stats1 := by
        simp only [runLines, hstep1]
      rw [← heq]
      exact hseg
    have hnodP : (stP.mounts.map Prod.fst).Nodup :=
      runLines_nodup pre initState stP hp List.nodup_nil
    have hnod1 : ((updA stP.mounts m1.mountPoint m1).map Prod.fst).Nodup :=
      updA_keys_nodup _ _ _ hnodP
    obtain ⟨hcur, hnodM, hcoll⟩ :=
      runLines_nondevice_collapse m1.mountPoint stats1 _ stMid h1 rfl hnod1 hseg1
    have hstep2 := stepLine_device_accept stMid raw2 m2 hdev2 hext2
    have hstepP := stepLine_device_accept stP raw2 m2 hdev2 hext2
    have hmounts : updA stMid.mounts m2.mountPoint m2 =
        updA stP.mounts m2.mountPoint m2 := by
      rw [← hkey, hcoll m2, updA_updA]
    have hL : parseLines (pre ++ raw1 :: stats1 ++ raw2 :: stats2) =
        runLines stMid (raw2 :: stats2) := by
      unfold parseLines
      rw [runLines_append initState (pre ++ raw1 :: stats1) (raw2 :: stats2),
          show runLines initState (pre ++ raw1 :: stats1) = some stMid from hs1]
    have hR : parseLines (pre ++ raw2 :: stats2) = runLines stP (raw2 :: stats2) := by
      unfold parseLines
      rw [runLines_append initState pre (raw2 :: stats2), hp]
    rw [hL, hR]
    simp only [runLines, hstep2, hstepP]
    rw [hmounts]

/-- Witness for C10 at a concrete stream: a stat line attached to the
first device line disappears from the final result. -/
theorem c10_witness :
    parseLines (([] : List String) ++ d1Line :: ["READ: 1 1 1 1 1 1 1 1 1"] ++
        d2Line :: []) =
      parseLines (([] : List String) ++ d2Line :: []) :=
  c10_last_device_line_wins [] ["READ: 1 1 1 1 1 1 1 1 1"] [] d1Line d2Line
    ⟨"10.0.0.1:/export1", "/mnt/nfs", "10.0.0.1", "/export1", 0, [],
      some zeroEvents, 0, 0⟩
    ⟨"10.0.0.2:/export2", "/mnt/nfs", "10.0.0.2", "/export2", 0, [],
      some zeroEvents, 0, 0⟩
    ⟨[("/mnt/nfs", ⟨"10.0.0.1:/export1", "/mnt/nfs", "10.0.0.1", "/export1", 0,
        [("READ", ⟨"READ", 1, 1, 1, 1, 1, 1, 1, 1, 1⟩)], some zeroEvents, 0, 0⟩)],
      some "/mnt/nfs"⟩
    (by decide) (by decide) (by decide) (by decide) (by decide)
    (by intro l hl; rw [List.mem_singleton] at hl; subst hl; decide)
    (by decide)

end NfsGaze
